import Mathlib

/-!
# Verification of the ratzilla incremental cell-buffer rendering core

A shallow embedding of the rendering core of the `ratzilla` crate
(`src/backend/canvas.rs`, `src/backend/dom.rs`, `src/backend/webgl2.rs`,
`src/backend/event_callback.rs`, `src/backend/cursor.rs`), together with
theorems settling the specified properties of the change tracker, the
row-span merger, the cursor overlay, the pointer mapper, the style-bit
packing and the backend `size`/`flush`/`draw` contracts.

Machine integers are modelled as `Nat` (with explicit `% 2 ^ 16` where a
`u16` shift can overflow), `f64` arithmetic as `ℚ`, and code that can
panic (out-of-bounds indexing) as `Option`-returning functions.
-/

namespace Ratzilla

/-- Colors, as in `ratatui::style::Color`: a handful of named variants, an
indexed variant and an RGB variant.  The rendering core only ever compares
colors for (structural) equality. -/
inductive Color where
  | Reset : Color
  | Black : Color
  | White : Color
  | Red : Color
  | Blue : Color
  | Indexed : Nat → Color
  | Rgb : Nat → Nat → Nat → Color
deriving DecidableEq, Repr

/-- Models `ratatui::style::Modifier`, a `u16` bitflag set; we carry it as the
underlying bit pattern.  `BOLD` is bit 0, `ITALIC` bit 2, `UNDERLINED`
bit 3, `REVERSED` bit 6, `CROSSED_OUT` bit 8. -/
abbrev Modifier := Nat

/-- The `Modifier::BOLD` bit (bit 0). -/
def MOD_BOLD : Modifier := 1
/-- The `Modifier::ITALIC` bit (bit 2). -/
def MOD_ITALIC : Modifier := 4
/-- The `Modifier::UNDERLINED` bit (bit 3). -/
def MOD_UNDERLINED : Modifier := 8
/-- The `Modifier::REVERSED` bit (bit 6). -/
def MOD_REVERSED : Modifier := 64
/-- The `Modifier::CROSSED_OUT` bit (bit 8). -/
def MOD_CROSSED_OUT : Modifier := 256

/-- A buffer cell, as in `ratatui::buffer::Cell`: a symbol, foreground and
background colors and the style modifier bits.  Equality is the derived
structural (value) equality, as in the Rust `#[derive(PartialEq)]`. -/
structure Cell where
  symbol : String
  fg : Color
  bg : Color
  modifier : Modifier
deriving DecidableEq, Repr

/-- Models `Cell::default()`: a space with `Reset` colors and no modifiers. -/
def Cell.default : Cell := ⟨" ", Color.Reset, Color.Reset, 0⟩

/-- Models `ratatui::layout::Rect` (the fields the rendering core uses). -/
structure Rect where
  x : Nat
  y : Nat
  width : Nat
  height : Nat
deriving DecidableEq, Repr

/-- A grid of cells: the canvas backend's `Vec<Vec<Cell>>` buffer. -/
abbrev Grid := List (List Cell)

/-- Modelled from the spec: `actual_bg_color` lives in the repository's
`backend/color.rs`, which is not among the provided sources.  Per the spec
(§4.3), background colors "affected by a `reversed` modifier swap
foreground/background before resolution": the resolved background of a
cell is its foreground color when `REVERSED` is set, else its background
color. -/
def actual_bg_color (cell : Cell) : Color :=
  if cell.modifier.testBit 6 then cell.fg else cell.bg

/-! ## `RowColorOptimizer` (`canvas.rs`, the spec's RowSpanMerger) -/

/-- Models `RowColorOptimizer`: the currently accumulating background region of
one row, if any. -/
structure RowColorOptimizer where
  pending_region : Option (Rect × Color)
deriving DecidableEq, Repr

/-- Models `RowColorOptimizer::new()`. -/
def RowColorOptimizer.new : RowColorOptimizer := ⟨none⟩

/-- Models `RowColorOptimizer::process_color`: returns the region to draw (if
any) together with the updated optimizer state.  Mirrors `canvas.rs`:
matching color extends the pending rectangle's width by one; a different
color emits the pending region and starts a fresh width-1 rectangle at
`pos`; with no pending region a fresh width-1 rectangle is started. -/
def RowColorOptimizer.process_color (o : RowColorOptimizer) (pos : Nat × Nat)
    (color : Color) : Option (Rect × Color) × RowColorOptimizer :=
  match o.pending_region with
  | some (active_rect, active_color) =>
    if active_color = color then
      (none, ⟨some ({ active_rect with width := active_rect.width + 1 }, active_color)⟩)
    else
      (some (active_rect, active_color), ⟨some (⟨pos.1, pos.2, 1, 1⟩, color)⟩)
  | none => (none, ⟨some (⟨pos.1, pos.2, 1, 1⟩, color)⟩)

/-- Models `RowColorOptimizer::flush`: takes the pending region, leaving none. -/
def RowColorOptimizer.flush (o : RowColorOptimizer) :
    Option (Rect × Color) × RowColorOptimizer :=
  (o.pending_region, ⟨none⟩)

/-- The inner loop of `CanvasBackend::draw_background` for one row: each
cell comes with its dirty flag; a dirty cell is fed to `process_color`
with its resolved background color, a clean cell flushes the pending
region instead, and after the row the optimizer is flushed once more.
Returns the emitted regions in emission order.  `x` is the column of the
first cell of `row`, `y` the row index. -/
def drawBackgroundRowGo (y : Nat) : Nat → RowColorOptimizer →
    List (Bool × Cell) → List (Rect × Color)
  | _, o, [] => (o.flush).1.toList
  | x, o, (dirty, cell) :: rest =>
    if dirty then
      let r := o.process_color (x, y) (actual_bg_color cell)
      r.1.toList ++ drawBackgroundRowGo y (x + 1) r.2 rest
    else
      let r := o.flush
      r.1.toList ++ drawBackgroundRowGo y (x + 1) r.2 rest

/-- One row of the background pass of `CanvasBackend::draw_background`. -/
def drawBackgroundRow (y : Nat) (row : List (Bool × Cell)) : List (Rect × Color) :=
  drawBackgroundRowGo y 0 RowColorOptimizer.new row

/-- Feeding a list of colors of consecutive dirty cells (starting at
column 0 of row `y`) through `process_color`, then flushing: the emitted
regions in order.  Used to state the spec's `[A,A,B,B,A]` example. -/
def processColorsGo (y : Nat) : Nat → RowColorOptimizer → List Color →
    List (Rect × Color)
  | _, o, [] => (o.flush).1.toList
  | x, o, c :: rest =>
    let r := o.process_color (x, y) c
    r.1.toList ++ processColorsGo y (x + 1) r.2 rest

/-- Runs `process_color` over a gap-free row of colors followed by a final
`flush`. -/
def processColors (y : Nat) (colors : List Color) : List (Rect × Color) :=
  processColorsGo y 0 RowColorOptimizer.new colors

/-! ## `CanvasBackend::resolve_changed_cells` (the spec's ChangeTracker) -/

/-- One row of `resolve_changed_cells`: for each cell of `line`, reading
the same-index cell of `prevLine` (`none` models the Rust panic of
`prev_buffer[y][x]` when the index does not exist), the dirty bit is
`force || cell != prev_cell`. -/
def resolveRow : List Cell → List Cell → Bool → Option (List Bool)
  | [], _, _ => some []
  | _ :: _, [], _ => none
  | c :: cs, p :: ps, force =>
    (resolveRow cs ps force).map (fun rest => (force || decide (c ≠ p)) :: rest)

/-- Models `CanvasBackend::resolve_changed_cells`: traverses the current buffer
row by row with a running flat index, comparing against the previous
buffer at the same coordinates.  The result is the flat list of dirty
bits; `none` models the panic when `prev_buffer` lacks an indexed
row/column (a row of the previous buffer is only read when the current
row is nonempty, as in the source's inner loop). -/
def resolve_changed_cells : Grid → Grid → Bool → Option (List Bool)
  | [], _, _ => some []
  | line :: ls, [], force =>
    if line.isEmpty then resolve_changed_cells ls [] force else none
  | line :: ls, p :: ps, force =>
    match resolveRow line p force, resolve_changed_cells ls ps force with
    | some r, some rest => some (r ++ rest)
    | _, _ => none

/-! ## `into_glyph_bits` (`webgl2.rs`) -/

/-- Models `into_glyph_bits`: remaps the `u16` modifier bit pattern `m` into the
external renderer's style-bit layout with four shift-and-mask steps
(bold bit 0 → 10, italic bit 2 → 11, underline bit 3 → 13, strikethrough
bit 8 → 14).  `u16` left shifts discard bits above 15, hence the
`% 2 ^ 16` on each shifted value. -/
def into_glyph_bits (m : Nat) : Nat :=
  ((m <<< 10) % 2 ^ 16) &&& (1 <<< 10)
    ||| ((m <<< 9) % 2 ^ 16) &&& (1 <<< 11)
    ||| ((m <<< 10) % 2 ^ 16) &&& (1 <<< 13)
    ||| ((m <<< 6) % 2 ^ 16) &&& (1 <<< 14)

/-! ## GPU backend cursor toggle (`webgl2.rs`) -/

/-- The cursor shapes of `backend/cursor.rs`. -/
inductive CursorShape where
  | SteadyBlock : CursorShape
  | SteadyUnderScore : CursorShape
  | None : CursorShape
deriving DecidableEq, Repr

/-- Modelled from the spec: beamterm's `CellData` (the external GPU
renderer's per-cell record) is not part of the sources; per the spec
(§4.5) it packs a symbol, packed style-effect bits and foreground and
background colors.  The cursor toggle only touches colors and style
bits, so the symbol is carried opaquely as a `String`. -/
structure CellData where
  symbol : String
  fg : Nat
  bg : Nat
  style : Nat
deriving DecidableEq, Repr

/-- Modelled from the spec: `CellData::flip_colors` of the external
renderer swaps foreground and background ("swap fg/bg", spec §4.5). -/
def CellData.flip_colors (c : CellData) : CellData :=
  { c with fg := c.bg, bg := c.fg }

/-- Models `GlyphEffect::Underline as u16`: bit 13 of the packed style word
(`webgl2.rs` bit-layout reference). -/
def GLYPH_EFFECT_UNDERLINE : Nat := 1 <<< 13

/-- The body of `WebGl2Backend::draw_cursor` applied to the addressed
cell: `SteadyBlock` flips colors, `SteadyUnderScore` XORs the underline
bit into the style word (`c.style(c.get_style() ^ GlyphEffect::Underline)`),
`None` leaves the cell untouched. -/
def draw_cursor_cell (shape : CursorShape) (c : CellData) : CellData :=
  match shape with
  | CursorShape.SteadyBlock => c.flip_colors
  | CursorShape.SteadyUnderScore => { c with style := c.style ^^^ GLYPH_EFFECT_UNDERLINE }
  | CursorShape.None => c

/-- The external renderer's stored grid, addressed by (column, row);
`none` models `cell_data_mut` returning `None` for an out-of-grid
position. -/
abbrev BeamGrid := Nat × Nat → Option CellData

/-- Models `WebGl2Backend::toggle_cursor`: if a cursor position is set and the
grid has a cell there, mutate that cell with `draw_cursor`; otherwise do
nothing. -/
def toggle_cursor (cursorPos : Option (Nat × Nat)) (shape : CursorShape)
    (grid : BeamGrid) : BeamGrid :=
  match cursorPos with
  | none => grid
  | some pos => fun p =>
    if p = pos then (grid pos).map (draw_cursor_cell shape) else grid p

/-- The effect of `WebGl2Backend::flush` on the stored grid: the cursor is
toggled, the GPU draw call (`render_frame`, which reads but does not
modify the stored cell data) runs, and the cursor is toggled again. -/
def webgl2_flush_grid (cursorPos : Option (Nat × Nat)) (shape : CursorShape)
    (grid : BeamGrid) : BeamGrid :=
  toggle_cursor cursorPos shape (toggle_cursor cursorPos shape grid)

/-! ## Canvas backend state (`canvas.rs`) -/

/-- The composite effect on a buffer cell of
`cell.set_style(cursor_shape.show(cell.style()))` (`canvas.rs` +
`cursor.rs` + ratatui's `Cell::style`/`Cell::set_style`): the colors are
rewritten to themselves and `Style::reversed`/`Style::underlined` insert
the corresponding modifier bit, so the net effect is inserting that bit
into the cell's modifiers. -/
def cursorShowCell (shape : CursorShape) (c : Cell) : Cell :=
  match shape with
  | CursorShape.SteadyBlock => { c with modifier := c.modifier ||| MOD_REVERSED }
  | CursorShape.SteadyUnderScore => { c with modifier := c.modifier ||| MOD_UNDERLINED }
  | CursorShape.None => c

/-- The composite effect on a buffer cell of
`cell.set_style(cursor_shape.hide(cell.style()))`:
`Style::not_reversed`/`Style::not_underlined` put the bit into the
`sub_modifier`, so the net effect is removing that bit from the cell's
modifiers (`u16` complement, hence the mask below `2 ^ 16`). -/
def cursorHideCell (shape : CursorShape) (c : Cell) : Cell :=
  match shape with
  | CursorShape.SteadyBlock => { c with modifier := c.modifier &&& (2 ^ 16 - 1 - MOD_REVERSED) }
  | CursorShape.SteadyUnderScore => { c with modifier := c.modifier &&& (2 ^ 16 - 1 - MOD_UNDERLINED) }
  | CursorShape.None => c

/-- The canvas backend state that `draw`/`flush`/cursor calls touch. -/
structure CanvasState where
  initialized : Bool
  buffer : Grid
  prev_buffer : Grid
  cursor_position : Option (Nat × Nat)
  cursor_shape : CursorShape
deriving DecidableEq, Repr

/-- One content write of `CanvasBackend::draw`: with `line` the addressed
row (`none` models the panic when `y` is out of bounds), the row is
extended by `repeat_with(Cell::default).take(x.saturating_sub(line.len()))`
default cells and `line[x] = cell` is performed — `none` models the panic
when index `x` still does not exist after the extension. -/
def writeCell (buffer : Grid) (x y : Nat) (cell : Cell) : Option Grid :=
  match buffer[y]? with
  | none => none
  | some line =>
    let line := line ++ List.replicate (x - line.length) Cell.default
    if x < line.length then some (buffer.set y (line.set x cell)) else none

/-- The content loop of `CanvasBackend::draw`: all incoming
`(x, y, cell)` items written in order. -/
def applyContentWrites (buffer : Grid) (content : List (Nat × Nat × Cell)) :
    Option Grid :=
  content.foldlM (fun b i => writeCell b i.1 i.2.1 i.2.2) buffer

/-- The cursor step at the end of `CanvasBackend::draw`: if a cursor
position is set, `self.buffer[y]` is indexed (`none` models the panic when
the row does not exist) and, when `x < line.len()`, the cursor shape's
show style is applied to the cell at the cursor position. -/
def applyCursorOverlay (shape : CursorShape) (pos : Option (Nat × Nat))
    (buffer : Grid) : Option Grid :=
  match pos with
  | none => some buffer
  | some (x, y) =>
    match buffer[y]? with
    | none => none
    | some line =>
      if x < line.length then
        some (buffer.set y (line.set x (cursorShowCell shape (line.getD x Cell.default))))
      else
        some buffer

/-- Models `CanvasBackend::draw`: content writes followed by the cursor step. -/
def canvas_draw (s : CanvasState) (content : List (Nat × Nat × Cell)) :
    Option CanvasState :=
  match applyContentWrites s.buffer content with
  | none => none
  | some b =>
    match applyCursorOverlay s.cursor_shape s.cursor_position b with
    | none => none
    | some b2 => some { s with buffer := b2 }

/-- Models `CanvasBackend::flush`: on the first call `update_grid(true)` runs and
the backend is marked initialized; afterwards `update_grid(false)` runs
only when the buffer differs from the previous-buffer snapshot.  In every
case the previous buffer is set to the current buffer.  The returned
`Bool` records whether `update_grid` (the drawing-context path) ran. -/
def canvas_flush (s : CanvasState) : CanvasState × Bool :=
  if s.initialized = false then
    ({ s with prev_buffer := s.buffer, initialized := true }, true)
  else if s.buffer ≠ s.prev_buffer then
    ({ s with prev_buffer := s.buffer }, true)
  else
    ({ s with prev_buffer := s.buffer }, false)

/-- Models `CanvasBackend::set_cursor_position`: if an old position is set, lies
within its row and differs from the new position, the cursor shape's hide
style is applied to the old cell; the cursor position becomes the new
position.  `none` models the panic when the old row does not exist. -/
def canvas_set_cursor_position (s : CanvasState) (newPos : Nat × Nat) :
    Option CanvasState :=
  match s.cursor_position with
  | none => some { s with cursor_position := some newPos }
  | some (x, y) =>
    match s.buffer[y]? with
    | none => none
    | some line =>
      let b :=
        if x < line.length ∧ (x, y) ≠ newPos then
          s.buffer.set y (line.set x (cursorHideCell s.cursor_shape (line.getD x Cell.default)))
        else
          s.buffer
      some { s with buffer := b, cursor_position := some newPos }

/-! ## Backend `size()` implementations -/

/-- Models `CanvasBackend::size`: one less (saturating) than the buffer's raw
dimensions; `self.buffer[0]` is indexed unconditionally, so `none` models
the panic on an empty buffer. -/
def canvas_size (buffer : Grid) : Option (Nat × Nat) :=
  match buffer[0]? with
  | none => none
  | some line => some (line.length - 1, buffer.length - 1)

/-- Models `DomBackend::size`: one less (saturating) than the stored raw grid
size in each axis. -/
def dom_size (rawSize : Nat × Nat) : Nat × Nat :=
  (rawSize.1 - 1, rawSize.2 - 1)

/-- Models `WebGl2Backend::size`: the external renderer's `terminal_size()`,
returned unchanged. -/
def webgl2_size (terminalSize : Nat × Nat) : Nat × Nat :=
  terminalSize

/-! ## `mouse_to_grid_coords` (`event_callback.rs`)

`f64` arithmetic is modelled over `ℚ`; every quantity in the spec's
example is exactly representable. -/

/-- Models `MouseConfig` of `event_callback.rs`. -/
structure MouseConfig where
  grid_width : Nat
  grid_height : Nat
  offset : Option ℚ
  cell_dimensions : Option (ℚ × ℚ)

/-- The element's bounding client rectangle (the fields read by
`mouse_to_grid_coords`). -/
structure BoundingRect where
  left : ℚ
  top : ℚ
  width : ℚ
  height : ℚ

/-- Rust's `as u16` cast of a non-negative `f64`: truncation toward zero
(floor, for non-negative values) saturated to `u16::MAX`. -/
def castU16 (q : ℚ) : Nat :=
  min (Int.toNat ⌊q⌋) 65535

/-- Models `mouse_to_grid_coords`: the relative position is the pointer minus the
rectangle origin minus the offset, clamped to zero; the drawable area
comes from the fixed cell dimensions times the grid size when configured,
else from the rectangle minus twice the offset; non-positive drawable
dimensions yield `(0, 0)`; otherwise the scaled relative position is cast
to `u16` and clamped by `min` with the grid dimension minus one
(saturating). -/
def mouse_to_grid_coords (clientX clientY : ℚ) (rect : BoundingRect)
    (config : MouseConfig) : Nat × Nat :=
  let offset := config.offset.getD 0
  let relative_x := max (clientX - rect.left - offset) 0
  let relative_y := max (clientY - rect.top - offset) 0
  let d : ℚ × ℚ :=
    match config.cell_dimensions with
    | some (cw, ch) => ((config.grid_width : ℚ) * cw, (config.grid_height : ℚ) * ch)
    | none => (rect.width - 2 * offset, rect.height - 2 * offset)
  if d.1 ≤ 0 ∨ d.2 ≤ 0 then (0, 0)
  else
    let col := castU16 (relative_x / d.1 * (config.grid_width : ℚ))
    let row := castU16 (relative_y / d.2 * (config.grid_height : ℚ))
    (min col (config.grid_width - 1), min row (config.grid_height - 1))

/-- The spec's wording of the pointer mapper (§4.6 and claim C5), written
independently of the source: relative position clamped to zero, drawable
area, the non-positive guard returning `(0, 0)`, and
`column = floor(relative.x / drawable.width × grid.width)` (and the row
analogously), each clamped to `[0, dimension − 1]`. -/
def mouse_to_grid_coords_specVersion (clientX clientY : ℚ) (rect : BoundingRect)
    (config : MouseConfig) : Nat × Nat :=
  let offset := config.offset.getD 0
  let relative : ℚ × ℚ :=
    (max (clientX - rect.left - offset) 0, max (clientY - rect.top - offset) 0)
  let drawable : ℚ × ℚ :=
    match config.cell_dimensions with
    | some (cw, ch) => ((config.grid_width : ℚ) * cw, (config.grid_height : ℚ) * ch)
    | none => (rect.width - 2 * offset, rect.height - 2 * offset)
  if drawable.1 ≤ 0 ∨ drawable.2 ≤ 0 then (0, 0)
  else
    (min (Int.toNat ⌊relative.1 / drawable.1 * (config.grid_width : ℚ)⌋)
      (config.grid_width - 1),
     min (Int.toNat ⌊relative.2 / drawable.2 * (config.grid_height : ℚ)⌋)
      (config.grid_height - 1))

/-- Reads the cell at (column `x`, row `y`) of a grid, if present. -/
def getCellAt (g : Grid) (x y : Nat) : Option Cell :=
  (g[y]?).bind fun row => row[x]?

/-! ## Theorems -/

/-- Applying the cursor mutation of `WebGl2Backend::draw_cursor` twice to
one cell restores the cell: color flips, underline-bit XORs and the
`None` no-op are each involutive. -/
theorem draw_cursor_cell_involutive (shape : CursorShape) (c : CellData) :
    draw_cursor_cell shape (draw_cursor_cell shape c) = c := by
  cases shape with
  | SteadyBlock => rfl
  | SteadyUnderScore =>
    simp only [draw_cursor_cell]
    cases c with
    | mk symbol fg bg style =>
      simp only [CellData.mk.injEq, and_true, true_and]
      exact Nat.xor_cancel_right _ _
  | None => rfl

/-- C4: for every cursor position and cursor shape, the pair of
`toggle_cursor` calls surrounding the GPU draw call in
`WebGl2Backend::flush` is self-inverse — after the flush, every stored
grid cell equals its value before the flush. -/
theorem c4_cursor_toggle_self_inverse (cursorPos : Option (Nat × Nat))
    (shape : CursorShape) (grid : BeamGrid) (p : Nat × Nat) :
    webgl2_flush_grid cursorPos shape grid p = grid p := by
  cases cursorPos with
  | none => rfl
  | some pos =>
    simp only [webgl2_flush_grid, toggle_cursor]
    by_cases hp : p = pos
    · subst hp
      simp only [if_pos rfl, Option.map_map]
      cases grid p with
      | none => rfl
      | some c => simp [Function.comp, draw_cursor_cell_involutive]
    · simp [if_neg hp]

/-- The four single-bit masks of `into_glyph_bits`, as powers of two. -/
theorem glyph_mask_pow_forms : (1 <<< 10 : Nat) = 2 ^ 10 ∧ (1 <<< 11 : Nat) = 2 ^ 11 ∧
    (1 <<< 13 : Nat) = 2 ^ 13 ∧ (1 <<< 14 : Nat) = 2 ^ 14 := by decide

/-- C6: `into_glyph_bits` is a pure function of the modifier bits that
remaps bold (bit 0) to output bit 10, italic (bit 2) to bit 11, underline
(bit 3) to bit 13 and strikethrough (bit 8) to bit 14, sets no other
output bit, yields identical bit patterns on identical inputs, and never
sets the underline output bit when packing bold alone. -/
theorem c6_glyph_bits_remap (m : Nat) :
    (into_glyph_bits m).testBit 10 = m.testBit 0 ∧
    (into_glyph_bits m).testBit 11 = m.testBit 2 ∧
    (into_glyph_bits m).testBit 13 = m.testBit 3 ∧
    (into_glyph_bits m).testBit 14 = m.testBit 8 ∧
    (∀ i, i ≠ 10 → i ≠ 11 → i ≠ 13 → i ≠ 14 → (into_glyph_bits m).testBit i = false) ∧
    into_glyph_bits m = into_glyph_bits m ∧
    (into_glyph_bits MOD_BOLD).testBit 13 = false := by
  refine ⟨?_, ?_, ?_, ?_, ?_, rfl, by decide⟩ <;>
    first
    | · rw [into_glyph_bits, glyph_mask_pow_forms.1, glyph_mask_pow_forms.2.1,
          glyph_mask_pow_forms.2.2.1, glyph_mask_pow_forms.2.2.2]
        simp only [Nat.testBit_lor, Nat.testBit_land, Nat.testBit_mod_two_pow,
          Nat.testBit_shiftLeft, Nat.testBit_two_pow]
        simp
    | · intro i h10 h11 h13 h14
        rw [into_glyph_bits, glyph_mask_pow_forms.1, glyph_mask_pow_forms.2.1,
          glyph_mask_pow_forms.2.2.1, glyph_mask_pow_forms.2.2.2]
        simp only [Nat.testBit_lor, Nat.testBit_land, Nat.testBit_mod_two_pow,
          Nat.testBit_shiftLeft, Nat.testBit_two_pow]
        have d10 : decide (10 = i) = false := by simp; omega
        have d11 : decide (11 = i) = false := by simp; omega
        have d13 : decide (13 = i) = false := by simp; omega
        have d14 : decide (14 = i) = false := by simp; omega
        rw [d10, d11, d13, d14]
        simp

/-- C6 witness: the theorem applied at the bold+underline modifier value,
its inner hypotheses discharged at bit 0. -/
theorem c6_glyph_bits_remap_witness :
    (into_glyph_bits (MOD_BOLD ||| MOD_UNDERLINED)).testBit 0 = false :=
  (c6_glyph_bits_remap (MOD_BOLD ||| MOD_UNDERLINED)).2.2.2.2.1 0
    (by decide) (by decide) (by decide) (by decide)

/-- C8 counterexample: the GPU backend's `size()` returns the external
renderer's terminal size unchanged — for an 80×24 terminal it returns
(80, 24), not the one-less (79, 23) the claim requires. -/
theorem c8_counterexample_webgl2_size : webgl2_size (80, 24) ≠ (80 - 1, 24 - 1) := by
  decide

/-- C8 (amended): the canvas and DOM backends' `size()` return one less
(saturating) than the raw allocated grid dimensions in each axis, while
the GPU backend's `size()` returns the external renderer's terminal size
unchanged. -/
theorem c8_size_contract (ln : List Cell) (rest : Grid) (raw t : Nat × Nat) :
    canvas_size (ln :: rest) = some (ln.length - 1, (ln :: rest).length - 1) ∧
    dom_size raw = (raw.1 - 1, raw.2 - 1) ∧
    webgl2_size t = t := by
  refine ⟨by simp [canvas_size], rfl, rfl⟩

/-- C9: a flush on an initialized canvas backend whose buffer equals the
previous-buffer snapshot runs zero drawing-context operations; every
flush ends with the previous buffer equal to the current buffer; hence a
second flush immediately after any flush (with an unchanged buffer) draws
nothing. -/
theorem c9_flush_idempotent :
    (∀ s : CanvasState, s.initialized = true → s.buffer = s.prev_buffer →
      (canvas_flush s).2 = false) ∧
    (∀ s : CanvasState, (canvas_flush s).1.prev_buffer = (canvas_flush s).1.buffer) ∧
    (∀ s : CanvasState, (canvas_flush (canvas_flush s).1).2 = false) := by
  refine ⟨?_, ?_, ?_⟩
  · intro s hinit hbuf
    simp [canvas_flush, hinit, hbuf]
  · intro s
    unfold canvas_flush
    split
    · rfl
    · split <;> rfl
  · intro s
    unfold canvas_flush
    split
    · simp_all
    · split <;> simp_all

/-- C9 witness: the theorem applied to a concrete initialized state with
buffer equal to the snapshot. -/
theorem c9_flush_idempotent_witness :
    (canvas_flush ⟨true, [[Cell.default]], [[Cell.default]], none,
      CursorShape.SteadyBlock⟩).2 = false :=
  c9_flush_idempotent.1 _ rfl rfl

/-- C10: evaluating `CanvasBackend::draw`'s write path at the failing
input: with row 0 empty and an incoming item at (x = 0, y = 0), the
extension `repeat_with(Cell::default).take(x.saturating_sub(line.len()))`
appends `x − len = 0` cells, leaving the row of length `x`, and the
subsequent `line[x]` write is out of bounds (the modelled panic,
`none`) — for any in-row-bounds item with `x ≥ line.len()` the call
panics instead of extending the row far enough. -/
theorem c10_draw_write_out_of_bounds :
    writeCell [[]] 0 0 Cell.default = none ∧
    canvas_draw ⟨true, [[]], [[]], none, CursorShape.SteadyBlock⟩
      [(0, 0, Cell.default)] = none ∧
    (([] : List Cell) ++ List.replicate (0 - ([] : List Cell).length) Cell.default).length = 0 := by
  refine ⟨rfl, rfl, rfl⟩

/-- C3: `process_color` starts a width-1 region when none is pending,
increments the pending width by one on a matching color, and otherwise
emits the pending region and starts a new width-1 region at the incoming
position; feeding `[a, a, b, b, a]` (for distinct colors) at consecutive
columns followed by a flush emits exactly width-2 `a`, width-2 `b`,
width-1 `a`, left to right. -/
theorem c3_row_span_merger (y : Nat) (a b : Color) (hab : a ≠ b) :
    (∀ pos color, RowColorOptimizer.new.process_color pos color =
      (none, ⟨some (⟨pos.1, pos.2, 1, 1⟩, color)⟩)) ∧
    (∀ (rect : Rect) (c : Color) (pos : Nat × Nat),
      (⟨some (rect, c)⟩ : RowColorOptimizer).process_color pos c =
        (none, ⟨some ({ rect with width := rect.width + 1 }, c)⟩)) ∧
    (∀ (rect : Rect) (c : Color) (pos : Nat × Nat) (color : Color), c ≠ color →
      (⟨some (rect, c)⟩ : RowColorOptimizer).process_color pos color =
        (some (rect, c), ⟨some (⟨pos.1, pos.2, 1, 1⟩, color)⟩)) ∧
    processColors y [a, a, b, b, a] =
      [(⟨0, y, 2, 1⟩, a), (⟨2, y, 2, 1⟩, b), (⟨4, y, 1, 1⟩, a)] := by
  refine ⟨fun pos color => rfl, ?_, ?_, ?_⟩
  · intro rect c pos
    simp [RowColorOptimizer.process_color]
  · intro rect c pos color hc
    simp [RowColorOptimizer.process_color, hc]
  · simp [processColors, processColorsGo, RowColorOptimizer.process_color,
      RowColorOptimizer.flush, RowColorOptimizer.new, hab, Ne.symm hab]

/-- C3 witness: the theorem applied to row 0 with the concrete colors red
and blue, the distinct-color hypotheses discharged by computation. -/
theorem c3_row_span_merger_witness :
    processColors 0 [Color.Red, Color.Red, Color.Blue, Color.Blue, Color.Red] =
      [(⟨0, 0, 2, 1⟩, Color.Red), (⟨2, 0, 2, 1⟩, Color.Blue), (⟨4, 0, 1, 1⟩, Color.Red)] :=
  (c3_row_span_merger 0 Color.Red Color.Blue (by decide)).2.2.2

/-- C5: for `u16` grid dimensions, `mouse_to_grid_coords` computes exactly
the spec's description (relative position clamped to zero, drawable area
from cell dimensions or rectangle, `(0, 0)` on a non-positive drawable
dimension, floored scaled coordinates clamped to the grid); and for grid
80×24, cell dimensions (10, 19), no offset and a pointer at pixel
(15, 38) relative to the element origin it returns column 1, row 2. -/
theorem c5_mouse_to_grid_coords (clientX clientY : ℚ) (rect : BoundingRect)
    (config : MouseConfig) (hw : config.grid_width ≤ 65535)
    (hh : config.grid_height ≤ 65535) :
    mouse_to_grid_coords clientX clientY rect config =
      mouse_to_grid_coords_specVersion clientX clientY rect config ∧
    mouse_to_grid_coords 15 38 ⟨0, 0, 0, 0⟩ ⟨80, 24, none, some (10, 19)⟩ = (1, 2) := by
  constructor
  · unfold mouse_to_grid_coords mouse_to_grid_coords_specVersion castU16
    cases hcd : config.cell_dimensions with
    | none =>
      simp only [hcd]
      split
      · rfl
      · simp only [Prod.mk.injEq]
        constructor <;> omega
    | some cd =>
      obtain ⟨cw, ch⟩ := cd
      simp only [hcd]
      split
      · rfl
      · simp only [Prod.mk.injEq]
        constructor <;> omega
  · norm_num [mouse_to_grid_coords, castU16]
    decide

/-- C5 witness: the theorem applied at the spec's concrete configuration,
the `u16`-bound hypotheses discharged by computation. -/
theorem c5_mouse_to_grid_coords_witness :
    mouse_to_grid_coords 15 38 ⟨0, 0, 0, 0⟩ ⟨80, 24, none, some (10, 19)⟩ = (1, 2) :=
  (c5_mouse_to_grid_coords 15 38 ⟨0, 0, 0, 0⟩ ⟨80, 24, none, some (10, 19)⟩
    (by decide) (by decide)).2

/-- The per-cell dirty bit of the change tracker. -/
def dirtyBit (force : Bool) (c p : Cell) : Bool :=
  force || decide (c ≠ p)

/-- On a row no longer than its previous-buffer counterpart, `resolveRow`
succeeds and produces the pointwise dirty bits. -/
theorem resolveRow_eq_zipWith (ln : List Cell) (prevLn : List Cell) (force : Bool)
    (h : ln.length ≤ prevLn.length) :
    resolveRow ln prevLn force = some (List.zipWith (dirtyBit force) ln prevLn) := by
  induction ln generalizing prevLn with
  | nil => simp [resolveRow]
  | cons c cs ih =>
    cases prevLn with
    | nil => simp at h
    | cons p ps =>
      simp only [List.length_cons, Nat.add_le_add_iff_right] at h
      simp [resolveRow, ih ps h, List.zipWith_cons_cons, dirtyBit]

/-- Grids with pointwise-equal row lengths have flattenings of equal
length. -/
theorem flatten_length_eq_of_forall₂ (buffer prev : Grid)
    (hdim : List.Forall₂ (fun a b => a.length = b.length) buffer prev) :
    buffer.flatten.length = prev.flatten.length := by
  induction hdim with
  | nil => rfl
  | cons h _ ih => simp [List.flatten_cons, ih, h]

/-- Indexing a `zipWith`. -/
theorem getElem?_zipWith {α β γ : Type} (f : α → β → γ) (as : List α)
    (bs : List β) (i : Nat) :
    (List.zipWith f as bs)[i]? = as[i]?.bind fun a => bs[i]?.map fun b => f a b := by
  induction as generalizing bs i with
  | nil => simp
  | cons a as ih =>
    cases bs with
    | nil => simp
    | cons b bs =>
      cases i with
      | zero => simp
      | succ n => simpa using ih bs n

/-- On grids with pointwise-equal row lengths, `resolve_changed_cells`
succeeds and produces the pointwise dirty bits of the flattened grids. -/
theorem resolve_changed_cells_eq_zipWith (buffer prev : Grid) (force : Bool)
    (hdim : List.Forall₂ (fun a b => a.length = b.length) buffer prev) :
    resolve_changed_cells buffer prev force =
      some (List.zipWith (dirtyBit force) buffer.flatten prev.flatten) := by
  induction hdim with
  | nil => simp [resolve_changed_cells]
  | cons h _ ih =>
    simp only [resolve_changed_cells, resolveRow_eq_zipWith _ _ force h.le, ih,
      List.flatten_cons]
    rw [List.zipWith_append _ _ _ _ _ h]

/-- C1: on grids of identical dimensions, the change tracker sets dirty
bit `i` to true iff `force` is set or cell `i` of the current grid
differs (value equality) from cell `i` of the previous grid; with `force`
set every bit is true. -/
theorem c1_change_tracker (buffer prev : Grid) (force : Bool)
    (hdim : List.Forall₂ (fun a b => a.length = b.length) buffer prev) :
    ∃ bits, resolve_changed_cells buffer prev force = some bits ∧
      bits.length = buffer.flatten.length ∧
      (∀ (i : Nat) (c p : Cell), buffer.flatten[i]? = some c →
        prev.flatten[i]? = some p →
        bits[i]? = some (force || decide (c ≠ p))) ∧
      (force = true → ∀ bit ∈ bits, bit = true) := by
  refine ⟨List.zipWith (dirtyBit force) buffer.flatten prev.flatten,
    resolve_changed_cells_eq_zipWith buffer prev force hdim, ?_, ?_, ?_⟩
  · rw [List.length_zipWith, flatten_length_eq_of_forall₂ buffer prev hdim,
      Nat.min_self]
  · intro i c p hc hp
    rw [getElem?_zipWith, hc, hp]
    rfl
  · intro hforce bit hmem
    subst hforce
    obtain ⟨i, hi⟩ := List.mem_iff_getElem?.mp hmem
    rw [getElem?_zipWith] at hi
    cases hc : buffer.flatten[i]? with
    | none => rw [hc] at hi; simp at hi
    | some c =>
      rw [hc] at hi
      cases hp : prev.flatten[i]? with
      | none => rw [hp] at hi; simp at hi
      | some p =>
        rw [hp] at hi
        simp [dirtyBit] at hi
        simp [← hi]

/-- C1 witness: the theorem applied to concrete 1×2 grids differing in one
cell, the dimension hypothesis discharged by construction; the dirty bits
are `[false, true]`. -/
theorem c1_change_tracker_witness :
    ∃ bits, resolve_changed_cells
        [[Cell.default, { Cell.default with symbol := "x" }]]
        [[Cell.default, Cell.default]] false = some bits ∧
      bits.length = 2 ∧ bits[0]? = some false ∧ bits[1]? = some true := by
  obtain ⟨bits, h1, h2, h3, _⟩ := c1_change_tracker
    [[Cell.default, { Cell.default with symbol := "x" }]]
    [[Cell.default, Cell.default]] false
    (List.Forall₂.cons (by decide) List.Forall₂.nil)
  refine ⟨bits, h1, by simpa using h2, ?_, ?_⟩
  · have := h3 0 Cell.default Cell.default (by decide) (by decide)
    simpa using this
  · have := h3 1 { Cell.default with symbol := "x" } Cell.default (by decide) (by decide)
    simpa using this

/-- The row-driver invariant: every region emitted by the background pass
of one row covers only positions satisfying `D`, provided the pending
region covers only such positions below the current column `x` and ends
exactly at `x`, and every dirty cell of the remaining suffix satisfies
`D` at its absolute column. -/
theorem drawBackgroundRowGo_dirty (y : Nat) (D : Nat → Prop) :
    ∀ (rest : List (Bool × Cell)) (x : Nat) (o : RowColorOptimizer),
    (∀ r c, o.pending_region = some (r, c) → r.x + r.width = x ∧
      ∀ k, r.x ≤ k → k < x → D k) →
    (∀ j e, rest[j]? = some e → e.1 = true → D (x + j)) →
    ∀ reg ∈ drawBackgroundRowGo y x o rest,
      ∀ k, reg.1.x ≤ k → k < reg.1.x + reg.1.width → D k := by
  intro rest
  induction rest with
  | nil =>
    intro x o hinv hD reg hreg k hk1 hk2
    obtain ⟨pend⟩ := o
    cases pend with
    | none => simp [drawBackgroundRowGo, RowColorOptimizer.flush] at hreg
    | some rc =>
      obtain ⟨r, c⟩ := rc
      simp only [drawBackgroundRowGo, RowColorOptimizer.flush,
        Option.toList_some, List.mem_singleton] at hreg
      subst hreg
      obtain ⟨hw, hcov⟩ := hinv r c rfl
      have hk1b : r.x ≤ k := by simpa using hk1
      have hk2b : k < r.x + r.width := by simpa using hk2
      exact hcov k hk1b (by omega)
  | cons e rest ih =>
    intro x o hinv hD reg hreg k hk1 hk2
    obtain ⟨dirty, cell⟩ := e
    have hDtail : ∀ j e2, rest[j]? = some e2 → e2.1 = true → D (x + 1 + j) := by
      intro j e2 hj he
      have h2 := hD (j + 1) e2 (by simpa using hj) he
      exact (by omega : x + (j + 1) = x + 1 + j) ▸ h2
    have hDhead : dirty = true → D x := by
      intro hd
      have := hD 0 (dirty, cell) (by simp) hd
      simpa using this
    obtain ⟨pend⟩ := o
    cases hd : dirty with
    | false =>
      subst hd
      simp only [drawBackgroundRowGo, Bool.false_eq_true, if_false,
        RowColorOptimizer.flush, List.mem_append] at hreg
      cases hreg with
      | inl hreg =>
        cases pend with
        | none => simp at hreg
        | some rc =>
          obtain ⟨r, c⟩ := rc
          simp only [Option.toList_some, List.mem_singleton] at hreg
          subst hreg
          obtain ⟨hw, hcov⟩ := hinv r c rfl
          have hk1b : r.x ≤ k := by simpa using hk1
          have hk2b : k < r.x + r.width := by simpa using hk2
          exact hcov k hk1b (by omega)
      | inr hreg =>
        refine ih (x + 1) ⟨none⟩ ?_ hDtail reg hreg k hk1 hk2
        intro r c h
        simp at h
    | true =>
      subst hd
      cases pend with
      | none =>
        simp only [drawBackgroundRowGo, if_true, RowColorOptimizer.process_color,
          Option.toList_none, List.nil_append] at hreg
        refine ih (x + 1) ⟨some (⟨x, y, 1, 1⟩, actual_bg_color cell)⟩ ?_ hDtail
          reg hreg k hk1 hk2
        intro r c h
        simp only [Option.some.injEq, Prod.mk.injEq] at h
        obtain ⟨hr, hc⟩ := h
        subst hr
        refine ⟨by simp, ?_⟩
        intro k2 hk3 hk4
        simp at hk3 hk4
        have hk5 : k2 = x := by omega
        subst hk5
        exact hDhead rfl
      | some rc =>
        obtain ⟨rect, acolor⟩ := rc
        simp only [drawBackgroundRowGo, if_true,
          RowColorOptimizer.process_color] at hreg
        by_cases hc : acolor = actual_bg_color cell
        · rw [if_pos hc] at hreg
          simp only [Option.toList_none, List.nil_append] at hreg
          obtain ⟨hw, hcov⟩ := hinv rect acolor rfl
          refine ih (x + 1) ⟨some ({ rect with width := rect.width + 1 }, acolor)⟩
            ?_ hDtail reg hreg k hk1 hk2
          intro r c h
          simp only [Option.some.injEq, Prod.mk.injEq] at h
          obtain ⟨hr, hc2⟩ := h
          subst hr
          refine ⟨by simp; omega, ?_⟩
          intro k2 hk3 hk4
          simp at hk3 hk4
          by_cases hk5 : k2 < x
          · exact hcov k2 hk3 hk5
          · have hk6 : k2 = x := by omega
            subst hk6
            exact hDhead rfl
        · rw [if_neg hc] at hreg
          simp only [Option.toList_some, List.cons_append, List.mem_cons] at hreg
          cases hreg with
          | inl hreg =>
            subst hreg
            obtain ⟨hw, hcov⟩ := hinv rect acolor rfl
            have hk1b : rect.x ≤ k := by simpa using hk1
            have hk2b : k < rect.x + rect.width := by simpa using hk2
            exact hcov k hk1b (by omega)
          | inr hreg =>
            refine ih (x + 1) ⟨some (⟨x, y, 1, 1⟩, actual_bg_color cell)⟩ ?_ hDtail
              reg hreg k hk1 hk2
            intro r c h
            simp only [Option.some.injEq, Prod.mk.injEq] at h
            obtain ⟨hr, hc2⟩ := h
            subst hr
            refine ⟨by simp, ?_⟩
            intro k2 hk3 hk4
            simp at hk3 hk4
            have hk5 : k2 = x := by omega
            subst hk5
            exact hDhead rfl

/-- A cell whose resolved background is red (no `REVERSED` modifier). -/
def redBgCell : Cell := ⟨"a", Color.White, Color.Red, 0⟩

/-- C2: a region emitted by the background pass of one row never spans a
cell that is not dirty — every column covered by an emitted region holds
a dirty cell; and the row with dirty pattern `[A, <unchanged>, A]` yields
exactly two width-1 regions of color A, never one width-3 region. -/
theorem c2_background_never_bridges_clean (y : Nat) (row : List (Bool × Cell))
    (reg : Rect × Color) (hreg : reg ∈ drawBackgroundRow y row) (k : Nat)
    (hk1 : reg.1.x ≤ k) (hk2 : k < reg.1.x + reg.1.width) :
    (∃ cell, row[k]? = some (true, cell)) ∧
    drawBackgroundRow 0 [(true, redBgCell), (false, redBgCell), (true, redBgCell)] =
      [(⟨0, 0, 1, 1⟩, Color.Red), (⟨2, 0, 1, 1⟩, Color.Red)] := by
  constructor
  · refine drawBackgroundRowGo_dirty y (fun k2 => ∃ cell, row[k2]? = some (true, cell))
      row 0 RowColorOptimizer.new ?_ ?_ reg hreg k hk1 hk2
    · intro r c h
      simp [RowColorOptimizer.new] at h
    · intro j e2 hj he
      refine ⟨e2.2, ?_⟩
      rw [Nat.zero_add, hj, ← he]
  · decide

/-- C2 witness: the theorem applied to the concrete `[A, <unchanged>, A]`
row at its first emitted region and covered column 0. -/
theorem c2_background_never_bridges_clean_witness :
    (∃ cell, [(true, redBgCell), (false, redBgCell), (true, redBgCell)][0]? =
      some (true, cell)) ∧
    drawBackgroundRow 0 [(true, redBgCell), (false, redBgCell), (true, redBgCell)] =
      [(⟨0, 0, 1, 1⟩, Color.Red), (⟨2, 0, 1, 1⟩, Color.Red)] :=
  c2_background_never_bridges_clean 0
    [(true, redBgCell), (false, redBgCell), (true, redBgCell)]
    (⟨0, 0, 1, 1⟩, Color.Red) (by decide) 0 (by decide) (by decide)

/-- A canvas state with the cursor set at (0, 0) and a 1×1 buffer. -/
def cursorAtOriginState : CanvasState :=
  ⟨true, [[Cell.default]], [[Cell.default]], some (0, 0), CursorShape.SteadyBlock⟩

/-- C7 counterexample: with the cursor set at (0, 0), a `draw` call whose
content writes the default cell at (0, 0) leaves a stored buffer that
differs from what the layout library wrote — the cursor shape's show
style (the `REVERSED` modifier) has been applied to the cell at the
cursor position, so cursor state is part of the diffed grid content. -/
theorem c7_counterexample_cursor_in_buffer :
    applyContentWrites cursorAtOriginState.buffer [(0, 0, Cell.default)] =
      some [[Cell.default]] ∧
    (canvas_draw cursorAtOriginState [(0, 0, Cell.default)]).map CanvasState.buffer ≠
      some [[Cell.default]] := by
  decide

/-- The cursor step of `CanvasBackend::draw` leaves every cell away from
the cursor position unchanged. -/
theorem applyCursorOverlay_getCellAt (shape : CursorShape)
    (pos : Option (Nat × Nat)) (b b2 : Grid)
    (h : applyCursorOverlay shape pos b = some b2) (x y : Nat)
    (hpos : pos ≠ some (x, y)) : getCellAt b2 x y = getCellAt b x y := by
  cases pos with
  | none =>
    simp only [applyCursorOverlay, Option.some.injEq] at h
    rw [← h]
  | some p =>
    obtain ⟨cx, cy⟩ := p
    simp only [applyCursorOverlay] at h
    split at h
    · exact absurd h (by simp)
    · rename_i ln hrow
      split at h
      · rename_i hx
        simp only [Option.some.injEq] at h
        subst h
        by_cases hy : y = cy
        · subst hy
          have hxne : x ≠ cx := fun hxx => hpos (by rw [hxx])
          have hylt : y < b.length := by
            by_contra hge
            rw [List.getElem?_eq_none (by omega)] at hrow
            exact absurd hrow (by simp)
          simp only [getCellAt]
          rw [List.getElem?_set_self hylt, hrow]
          simp only [Option.bind_some, Option.some_bind]
          exact List.getElem?_set_ne (fun hcc => hxne hcc.symm)
        · simp only [getCellAt]
          rw [List.getElem?_set_ne (fun hcc => hy hcc.symm)]
      · simp only [Option.some.injEq] at h
        rw [← h]

/-- C7 (amended): the stored buffer cells that flush diffs are what the
layout library wrote via `draw`, except at the cursor position: at the
end of each `draw` call with a cursor position set, the cursor shape's
show style is applied to the cell at that position (and moving or hiding
the cursor applies the hide style at the old position) — every cell away
from the cursor position equals exactly the layout library's content
writes. -/
theorem c7_cursor_not_in_diffed_content (s : CanvasState)
    (content : List (Nat × Nat × Cell)) (s2 : CanvasState)
    (h : canvas_draw s content = some s2) (b : Grid)
    (hb : applyContentWrites s.buffer content = some b) (x y : Nat)
    (hpos : s.cursor_position ≠ some (x, y)) :
    getCellAt s2.buffer x y = getCellAt b x y := by
  unfold canvas_draw at h
  rw [hb] at h
  split at h
  · exact absurd h (by simp)
  · rename_i bmid hmid
    simp only [Option.some.injEq] at hmid
    subst hmid
    split at h
    · exact absurd h (by simp)
    · rename_i b2 hov
      simp only [Option.some.injEq] at h
      have hbuf : s2.buffer = b2 := by rw [← h]
      rw [hbuf]
      exact applyCursorOverlay_getCellAt s.cursor_shape s.cursor_position b b2 hov
        x y hpos

/-- C7 amended-claim witness: the amended theorem applied to a concrete
draw on a 1×2 buffer with the cursor at (0, 0), read back at the
non-cursor column 1. -/
theorem c7_cursor_not_in_diffed_content_witness :
    getCellAt [[{ Cell.default with modifier := MOD_REVERSED },
      { Cell.default with symbol := "z" }]] 1 0 =
      getCellAt [[Cell.default, { Cell.default with symbol := "z" }]] 1 0 :=
  c7_cursor_not_in_diffed_content
    ⟨true, [[Cell.default, Cell.default]], [[Cell.default, Cell.default]],
      some (0, 0), CursorShape.SteadyBlock⟩
    [(1, 0, { Cell.default with symbol := "z" })]
    ⟨true, [[{ Cell.default with modifier := MOD_REVERSED },
      { Cell.default with symbol := "z" }]],
      [[Cell.default, Cell.default]], some (0, 0), CursorShape.SteadyBlock⟩
    (by decide)
    [[Cell.default, { Cell.default with symbol := "z" }]]
    (by decide) 1 0 (by decide)

end Ratzilla
